import Mathlib

/-!
Verification of the content-model resolution layer of the typst repository
slice: table/cell property resolution (`crates/typst/src/model/table.rs`) and
link destination resolution (`crates/typst/src/model/link.rs`).

Pure data and functions are shallowly embedded: Rust enums become inductives,
structs become structures, and methods become functions.  Helper types that
live outside the provided slice (`Smart`, `Sides`, `Align`, `Celled`, the
introspector and the pass scheduler) are modelled from the specification, as
marked on each definition.  Lengths (`Rel<Length>` values that in the slice
are only ever absolute points) are modelled as rationals.
-/

namespace Typst

/-- Modelled from the spec: the Tri-State Value `Auto`/`Custom` wrapper
(`Smart<T>` in the source's foundations, outside the slice): one scope's
contribution to a property, distinguishing "inherit" from "explicit". -/
inductive Smart (α : Type) where
  | auto : Smart α
  | custom (v : α) : Smart α
deriving DecidableEq

/-- Modelled from the spec: "Custom wins, Auto defers" — return the custom
value, or the given default when `auto` (Rust `Smart::unwrap_or`, also
standing in for `unwrap_or_else`, whose closure is pure here). -/
def Smart.unwrap_or {α : Type} (s : Smart α) (default : α) : α :=
  match s with
  | .auto => default
  | .custom v => v

/-- Modelled from the spec: map the custom value, or return the default when
`auto` (Rust `Smart::map_or`). -/
def Smart.map_or {α β : Type} (s : Smart α) (default : β) (f : α → β) : β :=
  match s with
  | .auto => default
  | .custom v => f v

/-- A paint (color); kept abstract as a tagged value, matching the slice's
opaque use of `Paint`. -/
inductive Paint where
  | color (n : Nat)
deriving DecidableEq

/-- Modelled from the spec: a horizontal alignment component. -/
inductive HAlignment where
  | left
  | center
  | right
deriving DecidableEq

/-- Modelled from the spec: a vertical alignment component. -/
inductive VAlignment where
  | top
  | horizon
  | bottom
deriving DecidableEq

/-- Modelled from the spec: a 2D alignment whose axes may each be unset; a
field-wise-merge property (`Align` lives outside the slice). -/
structure Align where
  x : Option HAlignment
  y : Option VAlignment
deriving DecidableEq

/-- Modelled from the spec: field-wise merge of alignments — each axis set in
the inner value wins, each unset axis inherits the outer scope's axis. -/
def Align.fold (inner outer : Align) : Align :=
  ⟨inner.x.or outer.x, inner.y.or outer.y⟩

/-- Four sides (`Sides<T>` in the source's layout crate, outside the slice);
field order as in the source: left, top, right, bottom. -/
structure Sides (α : Type) where
  left : α
  top : α
  right : α
  bottom : α
deriving DecidableEq

/-- Apply a function to every side (Rust `Sides::map`). -/
def Sides.map {α β : Type} (s : Sides α) (f : α → β) : Sides β :=
  ⟨f s.left, f s.top, f s.right, f s.bottom⟩

/-- The same value on every side (Rust `Sides::splat`). -/
def Sides.splat {α : Type} (v : α) : Sides α :=
  ⟨v, v, v, v⟩

/-- Modelled from the spec: field-wise merge of a partial inset with a
concrete outer inset — each side of the inner value that is set wins, each
unset side inherits the outer side (the fold used by `resolve_cell`). -/
def Sides.fold {α : Type} (inner : Sides (Option α)) (outer : Sides α) : Sides α :=
  ⟨inner.left.getD outer.left, inner.top.getD outer.top,
   inner.right.getD outer.right, inner.bottom.getD outer.bottom⟩

/-- Modelled from the spec: field-wise merge of two partial side sets from
nested style scopes (the homogeneous fold the style chain applies to the
`inset` property). -/
def Sides.foldOpt {α : Type} (inner outer : Sides (Option α)) : Sides (Option α) :=
  ⟨inner.left.or outer.left, inner.top.or outer.top,
   inner.right.or outer.right, inner.bottom.or outer.bottom⟩

/-- Modelled from the spec: a Celled property — either a fixed value or a
pure function of zero-based (column, row) coordinates. -/
inductive Celled (α : Type) where
  | value (v : α) : Celled α
  | func (f : Nat → Nat → α) : Celled α

/-- Modelled from the spec: evaluate a Celled property at a coordinate. -/
def Celled.eval {α : Type} (c : Celled α) (x y : Nat) : α :=
  match c with
  | .value v => v
  | .func f => f x y

/-- An introspection location handle (opaque in the slice). -/
structure Location where
  id : Nat
deriving DecidableEq

/-- A page position (`Position` in the layout crate): page number plus point
coordinates on that page. -/
structure Position where
  page : Nat
  x : ℚ
  y : ℚ
deriving DecidableEq

/-- A link destination (`Destination` in `link.rs`): a URL, a point on a
page, or an unresolved location in the document. -/
inductive Destination where
  | url (s : List Char)
  | position (p : Position)
  | location (loc : Location)
deriving DecidableEq

/-- A label: a user-chosen identifier attached to some element. -/
structure Label where
  name : List Char
deriving DecidableEq

/-- A target where a link can go (`LinkTarget` in `link.rs`). -/
inductive LinkTarget where
  | dest (d : Destination)
  | label (l : Label)
deriving DecidableEq

/-- Content, as far as this slice constructs it: plain text, a body linked to
a destination (`Content::linked`), a body styled with a hyphenation setting
(`TextElem::set_hyphenate`), or a repacked table cell carrying its resolved
property metadata (`TableCell::pack` after the `push_*` calls). -/
inductive Content where
  | text (s : List Char)
  | linked (dest : Destination) (body : Content)
  | styledHyphenate (setting : Smart Bool) (body : Content)
  | cellPack (fill : Smart (Option Paint)) (align : Smart Align)
      (inset : Smart (Sides (Option ℚ))) (body : Content)
deriving DecidableEq

/-- An authored table cell (`TableCell` in `table.rs`): body content plus
optional tri-state overrides for fill, align and inset.  Field accesses
through the style chain (`self.fill(styles)` etc.) are modelled as plain
field reads, the style chain being treated as a primitive. -/
structure TableCell where
  body : Content
  fill : Smart (Option Paint) := Smart.auto
  align : Smart Align := Smart.auto
  inset : Smart (Sides (Option ℚ)) := Smart.auto
deriving DecidableEq

/-- Repack an authored cell as content carrying its property metadata
(Rust `self.pack()` at the end of `resolve_cell`). -/
def TableCell.pack (c : TableCell) : Content :=
  Content.cellPack c.fill c.align c.inset c.body

/-- A resolved, layout-facing cell (`Cell` in the layout crate): body content
(with attached metadata) and a materialized, concrete fill. -/
structure Cell where
  body : Content
  fill : Option Paint
deriving DecidableEq

/-- `TableCell::resolve_cell` from `table.rs` (the `ResolvableCell` impl):
resolves fill with `unwrap_or_else` against the container fill, folds align
against the container align only when the container align is custom, folds
inset field-wise against the (concrete) container inset, pushes the results
back into the cell and repacks it.  The two leading coordinates are unused by
the source (`_: usize, _: usize`). -/
def TableCell.resolve_cell (c : TableCell) (_x _y : Nat) (fill : Option Paint)
    (align : Smart Align) (inset : Sides ℚ) : Cell :=
  let fill2 := c.fill.unwrap_or fill
  let align2 : Smart Align :=
    match align with
    | .custom a => Smart.custom (c.align.map_or a (fun inner => inner.fold a))
    | .auto => c.align
  let inset2 : Smart (Sides (Option ℚ)) :=
    Smart.custom ((c.inset.map_or inset (fun inner => inner.fold inset)).map some)
  let packed : TableCell :=
    { body := c.body, fill := Smart.custom fill2, align := align2, inset := inset2 }
  { body := packed.pack, fill := fill2 }

/-- Modelled from the spec: the call site of cell resolution (grid
construction, outside the slice) evaluates the Celled container fill at the
cell's coordinate and passes the result to `resolve_cell`. -/
def resolveCellAt (c : TableCell) (x y : Nat) (fill : Celled (Option Paint))
    (align : Smart Align) (inset : Sides ℚ) : Cell :=
  c.resolve_cell x y (fill.eval x y) align inset

/-- The fill metadata attached to a resolved cell's body (the layout engine
reads property metadata from the cell's attached content). -/
def Cell.metaFill (cl : Cell) : Smart (Option Paint) :=
  match cl.body with
  | .cellPack f _ _ _ => f
  | _ => Smart.auto

/-- The align metadata attached to a resolved cell's body. -/
def Cell.metaAlign (cl : Cell) : Smart Align :=
  match cl.body with
  | .cellPack _ a _ _ => a
  | _ => Smart.auto

/-- The inset metadata attached to a resolved cell's body. -/
def Cell.metaInset (cl : Cell) : Smart (Sides (Option ℚ)) :=
  match cl.body with
  | .cellPack _ _ i _ => i
  | _ => Smart.auto

/-- The compiled-in default of the table `inset` property
(`Sides::splat(Abs::pt(5.0).into())` in `table.rs`): 5pt on every side,
every side set. -/
def tableInsetDefault : Sides (Option ℚ) :=
  Sides.splat (some 5)

/-- Rust `str::trim_start_matches`: repeatedly remove the pattern from the
start of the string while it is a prefix.  The fuel argument bounds the
number of removals; `trimStartMatches` below supplies enough fuel for the
loop to run to completion, so this is the exact semantics. -/
def trimAux (p : List Char) : Nat → List Char → List Char
  | 0, s => s
  | fuel + 1, s => if p.isPrefixOf s then trimAux p fuel (s.drop p.length) else s

/-- Rust `str::trim_start_matches` on character lists. -/
def trimStartMatches (p s : List Char) : List Char :=
  trimAux p (s.length + 1) s

/-- The `"mailto:"` prefix literal from `body_from_url`. -/
def mailtoPre : List Char := "mailto:".toList

/-- The `"tel:"` prefix literal from `body_from_url`. -/
def telPre : List Char := "tel:".toList

/-- `body_from_url` from `link.rs`: trim the `mailto:` pattern, then the
`tel:` pattern, from the start of the URL; pack the trimmed text if it is
shorter than the URL, the full URL otherwise. -/
def body_from_url (url : List Char) : Content :=
  let text := trimStartMatches telPre (trimStartMatches mailtoPre url)
  Content.text (if text.length < url.length then text else url)

/-- A link element (`LinkElem` in `link.rs`): destination target, body
content, and its source span (spans are opaque handles here). -/
structure LinkElem where
  dest : LinkTarget
  body : Content
  span : Nat
deriving DecidableEq

/-- `LinkElem::from_url`: a link element from a URL with its bare text. -/
def LinkElem.from_url (url : List Char) (span : Nat) : LinkElem :=
  { dest := LinkTarget.dest (Destination.url url), body := body_from_url url,
    span := span }

/-- A diagnostic carrying the source span it is attributed to. -/
structure Diag where
  span : Nat
  msg : List Char
deriving DecidableEq

/-- `At::at` from the diagnostics module: tag a plain error with a span. -/
def atSpan {α : Type} (r : Except (List Char) α) (span : Nat) : Except Diag α :=
  match r with
  | .ok v => .ok v
  | .error m => .error ⟨span, m⟩

/-- Modelled from the spec: the introspection index, a queryable black box
mapping labels to element locations; its state in the current pass. -/
structure Introspector where
  find : Label → Option Location

/-- Modelled from the spec: `query_label(label) -> found(element_handle) |
not_found` — the element handle is the location; a missing label is a plain
(span-less) error. -/
def Introspector.query_label (intro : Introspector) (l : Label) :
    Except (List Char) Location :=
  match intro.find l with
  | some loc => .ok loc
  | none => .error "label does not exist in the document".toList

/-- `TextElem::set_hyphenate(Hyphenate(Smart::Custom(false)))` applied via
`Content::styled`: style a body with hyphenation forced off. -/
def hyphenateOff (c : Content) : Content :=
  Content.styledHyphenate (Smart.custom false) c

/-- `LinkElem::show` from `link.rs`.  A concrete destination is attached
immediately.  A label target is resolved through the pass scheduler
(`engine.delayed`, modelled from the spec): the lookup closure queries the
introspector, tags any failure with the link's own span, and wraps the found
location as `Destination::Location`; when the closure fails, the caller gets
the plain body back as fallback (`unwrap_or(body)`) and the tagged error
surfaces as a diagnostic only on the final pass (`finalPass`), once the pass
budget's fixed point is reached.  Either way the result is styled with
hyphenation forced off. -/
def show_link (intro : Introspector) (finalPass : Bool) (l : LinkElem) :
    Except Diag Content :=
  match l.dest with
  | .dest d => .ok (hyphenateOff (Content.linked d l.body))
  | .label lab =>
    match atSpan (intro.query_label lab) l.span with
    | .ok loc => .ok (hyphenateOff (Content.linked (Destination.location loc) l.body))
    | .error diag => if finalPass then .error diag else .ok (hyphenateOff l.body)

/-- Track sizings for table columns, rows or gutters; their internal
structure is irrelevant here, only which value is chosen. -/
structure TrackSizings where
  tracks : List ℚ
deriving DecidableEq

/-- Modelled from the spec: the compiled-in default track sizing, used when
a sizing argument is absent from the argument list and the style chain. -/
def defaultTracks : TrackSizings := ⟨[]⟩

/-- The named arguments of a `table(..)` invocation that concern gutters;
`none` means the argument was omitted. -/
structure TableArgs where
  gutter : Option TrackSizings
  columnGutter : Option TrackSizings
  rowGutter : Option TrackSizings
deriving DecidableEq

/-- The `#[parse(..)]` expression of `TableElem::column_gutter`:
`args.named("column-gutter")?.or_else(|| gutter.clone())` where `gutter` is
`args.named("gutter")?`. -/
def parseColumnGutter (args : TableArgs) : Option TrackSizings :=
  args.columnGutter.or args.gutter

/-- The `#[parse(..)]` expression of `TableElem::row_gutter`:
`args.named("row-gutter")?.or_else(|| gutter.clone())`. -/
def parseRowGutter (args : TableArgs) : Option TrackSizings :=
  args.rowGutter.or args.gutter

/-- Modelled from the spec: the value the element system yields for the
column-gutter field — the parsed value when present, the default track
sizing when the parse produced nothing. -/
def columnGutterValue (args : TableArgs) : TrackSizings :=
  (parseColumnGutter args).getD defaultTracks

/-- Modelled from the spec: the value the element system yields for the
row-gutter field. -/
def rowGutterValue (args : TableArgs) : TrackSizings :=
  (parseRowGutter args).getD defaultTracks

/-! ## Theorems -/

/-! ### Helper lemmas about pattern trimming -/

/-- If the pattern is not a prefix, trimming leaves the string unchanged at
any fuel. -/
theorem trimAux_not_matched {p s : List Char} (h : p.isPrefixOf s = false) :
    ∀ fuel, trimAux p fuel s = s := by
  intro fuel
  cases fuel with
  | zero => rfl
  | succ n => simp [trimAux, h]

/-- A boolean prefix is no longer than the string it prefixes. -/
theorem isPrefixOf_length_le :
    ∀ {l₁ l₂ : List Char}, l₁.isPrefixOf l₂ = true → l₁.length ≤ l₂.length := by
  intro l₁
  induction l₁ with
  | nil =>
    intro l₂ _
    simp
  | cons a as ih =>
    intro l₂ h
    cases l₂ with
    | nil => simp [List.isPrefixOf] at h
    | cons b bs =>
      simp only [List.isPrefixOf, Bool.and_eq_true] at h
      simpa using ih h.2

/-- A list is a boolean prefix of itself followed by anything. -/
theorem isPrefixOf_append_self (p s : List Char) : p.isPrefixOf (p ++ s) = true := by
  induction p with
  | nil => simp [List.isPrefixOf]
  | cons a as ih => simp [List.isPrefixOf, ih]

/-- Trimming the empty pattern never changes the string. -/
theorem trimAux_nil (s : List Char) : ∀ fuel, trimAux [] fuel s = s := by
  intro fuel
  induction fuel with
  | zero => rfl
  | succ n ih => simpa [trimAux, List.isPrefixOf] using ih

/-- Any fuel beyond the string's length yields the same trim result: the
trimming loop runs to completion. -/
theorem trimAux_fuel_invariant (p : List Char) :
    ∀ n, ∀ s : List Char, s.length ≤ n →
      trimAux p (n + 1) s = trimAux p (s.length + 1) s := by
  intro n
  induction n using Nat.strong_induction_on with
  | _ n ih =>
    intro s hs
    by_cases hnil : p = []
    · subst hnil
      rw [trimAux_nil, trimAux_nil]
    cases hpre : p.isPrefixOf s with
    | false => rw [trimAux_not_matched hpre, trimAux_not_matched hpre]
    | true =>
      have hplen : 0 < p.length := List.length_pos.mpr hnil
      have hsp : p.length ≤ s.length := isPrefixOf_length_le hpre
      have hslen : 0 < s.length := lt_of_lt_of_le hplen hsp
      have hd : (s.drop p.length).length < s.length := by
        rw [List.length_drop]
        exact Nat.sub_lt hslen hplen
      rw [trimAux, trimAux, if_pos hpre, if_pos hpre]
      obtain ⟨m, hm⟩ : ∃ m, n = m + 1 := by
        cases n with
        | zero => exact absurd hs (by omega)
        | succ k => exact ⟨k, rfl⟩
      obtain ⟨k, hk⟩ : ∃ k, s.length = k + 1 := by
        cases hsl : s.length with
        | zero => exact absurd hsl (by omega)
        | succ k => exact ⟨k, rfl⟩
      rw [hm, hk]
      have h1 := ih m (by omega) (s.drop p.length) (by omega)
      have h2 := ih k (by omega) (s.drop p.length) (by omega)
      rw [h1, h2]

/-- Trimming a non-matching pattern is the identity. -/
theorem trimStartMatches_not_matched {p s : List Char}
    (h : p.isPrefixOf s = false) : trimStartMatches p s = s :=
  trimAux_not_matched h _

/-- Trimming strips one leading occurrence of the pattern and continues:
repeated leading occurrences are all removed. -/
theorem trimStartMatches_strip {p s : List Char} (hnil : p ≠ []) :
    trimStartMatches p (p ++ s) = trimStartMatches p s := by
  show trimAux p ((p ++ s).length + 1) (p ++ s) = trimStartMatches p s
  rw [trimAux, if_pos (isPrefixOf_append_self p s), List.drop_left]
  have hplen : 0 < p.length := List.length_pos.mpr hnil
  have hlen : (p ++ s).length = (p.length - 1) + s.length + 1 := by
    simp [List.length_append]
    omega
  rw [hlen]
  exact trimAux_fuel_invariant p _ s (by omega)

/-- Trimming either changes nothing or strictly shortens the string. -/
theorem trimAux_eq_or_lt (p : List Char) :
    ∀ fuel s, trimAux p fuel s = s ∨ (trimAux p fuel s).length < s.length := by
  intro fuel
  induction fuel with
  | zero =>
    intro s
    exact Or.inl rfl
  | succ n ih =>
    intro s
    cases hpre : p.isPrefixOf s with
    | false =>
      rw [trimAux_not_matched hpre]
      exact Or.inl rfl
    | true =>
      by_cases hnil : p = []
      · subst hnil
        rw [trimAux_nil]
        exact Or.inl rfl
      · have hplen : 0 < p.length := List.length_pos.mpr hnil
        have hsp : p.length ≤ s.length := isPrefixOf_length_le hpre
        have hd : (s.drop p.length).length < s.length := by
          rw [List.length_drop]
          omega
        rw [trimAux, if_pos hpre]
        rcases ih (s.drop p.length) with h | h
        · rw [h]
          right
          exact hd
        · right
          omega

/-- Trimming never lengthens the string. -/
theorem trimStartMatches_length_le (p s : List Char) :
    (trimStartMatches p s).length ≤ s.length := by
  rcases trimAux_eq_or_lt p (s.length + 1) s with h | h
  · rw [trimStartMatches, h]
  · exact le_of_lt h

/-- A trim result as long as its input is its input. -/
theorem trimStartMatches_eq_of_length (p s : List Char)
    (h : s.length ≤ (trimStartMatches p s).length) : trimStartMatches p s = s := by
  rcases trimAux_eq_or_lt p (s.length + 1) s with h' | h'
  · exact h'
  · exact absurd h (by rw [trimStartMatches]; omega)

/-- The mailto pattern never prefixes a string starting with the tel
pattern. -/
theorem mailto_not_before_tel (s : List Char) :
    mailtoPre.isPrefixOf (telPre ++ s) = false := rfl

/-- `body_from_url`, with its let-binding and trims spelled out. -/
theorem body_from_url_eq (u : List Char) :
    body_from_url u = Content.text
      (if (trimStartMatches telPre (trimStartMatches mailtoPre u)).length < u.length
       then trimStartMatches telPre (trimStartMatches mailtoPre u) else u) := rfl

/-- The `"mailto:"` pattern has seven characters. -/
theorem mailtoPre_length : mailtoPre.length = 7 := rfl

/-- The `"tel:"` pattern has four characters. -/
theorem telPre_length : telPre.length = 4 := rfl

/-- Claim C5 as stated fails: `body_from_url` uses `trim_start_matches`,
which removes repeated leading occurrences of the pattern, not only one.  At
the URL `"mailto:mailto:hello@typst.app"` the generated body text is
`"hello@typst.app"`, while the URL with only a single leading `mailto:`
prefix removed would be `"mailto:hello@typst.app"`. -/
theorem body_from_url_repeats_counterexample :
    body_from_url ("mailto:mailto:hello@typst.app".toList) =
      Content.text ("hello@typst.app".toList) ∧
    Content.text ("hello@typst.app".toList) ≠
      Content.text ("mailto:hello@typst.app".toList) := by
  constructor
  · decide
  · decide

/-- Claim C5 amended: for a link constructed from a URL with no body, the
generated body text equals the URL with all leading repetitions of
`mailto:` removed, then all leading repetitions of `tel:` removed, and
equals the full URL character-for-character when neither prefix is present;
in particular `"https://example.com"` is kept whole and
`"mailto:hello@typst.app"` becomes `"hello@typst.app"`. -/
theorem body_from_url_trims_schemes :
    (∀ u : List Char, body_from_url (mailtoPre ++ u) = body_from_url u) ∧
    (∀ u : List Char, mailtoPre.isPrefixOf u = false →
      body_from_url (telPre ++ u) = body_from_url u) ∧
    (∀ u : List Char, mailtoPre.isPrefixOf u = false →
      telPre.isPrefixOf u = false → body_from_url u = Content.text u) ∧
    body_from_url ("https://example.com".toList) =
      Content.text ("https://example.com".toList) ∧
    body_from_url ("mailto:hello@typst.app".toList) =
      Content.text ("hello@typst.app".toList) := by
  refine ⟨?_, ?_, ?_, by decide, by decide⟩
  · intro u
    rw [body_from_url_eq, body_from_url_eq,
      trimStartMatches_strip (p := mailtoPre) (by decide)]
    have happ : (mailtoPre ++ u).length = 7 + u.length := by
      rw [List.length_append, mailtoPre_length]
    by_cases hlt :
        (trimStartMatches telPre (trimStartMatches mailtoPre u)).length < u.length
    · rw [if_pos hlt, if_pos (by omega)]
    · have h1 := trimStartMatches_length_le telPre (trimStartMatches mailtoPre u)
      have h2 := trimStartMatches_length_le mailtoPre u
      have hmu : trimStartMatches mailtoPre u = u :=
        trimStartMatches_eq_of_length _ _ (by omega)
      rw [hmu] at hlt h1 ⊢
      have htu : trimStartMatches telPre u = u :=
        trimStartMatches_eq_of_length _ _ (by omega)
      rw [htu, if_pos (by omega), if_neg (lt_irrefl _)]
  · intro u hmp
    rw [body_from_url_eq, body_from_url_eq,
      trimStartMatches_not_matched (mailto_not_before_tel u),
      trimStartMatches_strip (p := telPre) (by decide),
      trimStartMatches_not_matched hmp]
    have happ : (telPre ++ u).length = 4 + u.length := by
      rw [List.length_append, telPre_length]
    by_cases hlt : (trimStartMatches telPre u).length < u.length
    · rw [if_pos hlt, if_pos (by omega)]
    · have h1 := trimStartMatches_length_le telPre u
      have htu : trimStartMatches telPre u = u :=
        trimStartMatches_eq_of_length _ _ (by omega)
      rw [htu, if_pos (by omega), if_neg (lt_irrefl _)]
  · intro u hm ht
    rw [body_from_url_eq, trimStartMatches_not_matched hm,
      trimStartMatches_not_matched ht, if_neg (lt_irrefl _)]

/-- Witness for the amended C5: a `tel:` URL whose remainder carries neither
prefix loses exactly its `tel:` scheme. -/
theorem body_from_url_trims_schemes_witness :
    body_from_url ("tel:+123".toList) = Content.text ("+123".toList) := by
  have h1 := body_from_url_trims_schemes.2.1 ("+123".toList) (by decide)
  have h2 := body_from_url_trims_schemes.2.2.1 ("+123".toList) (by decide) (by decide)
  have he : telPre ++ ("+123".toList) = "tel:+123".toList := by decide
  rw [← he, h1, h2]

/-- Claim C6: for a link targeting a label, when the introspector does not
find the label in the current pass, show returns the plain unlinked body
(hyphenation-styled) as the current pass's fallback; and when the label is
still unfound once the pass budget's fixed point is reached, the resulting
diagnostic carries the link element's own span. -/
theorem show_label_fallback_and_span (intro : Introspector) (l : LinkElem)
    (lab : Label) (hd : l.dest = LinkTarget.label lab)
    (hq : intro.find lab = none) :
    show_link intro false l = Except.ok (hyphenateOff l.body) ∧
    (∃ m, show_link intro true l = Except.error ⟨l.span, m⟩) := by
  constructor
  · simp [show_link, hd, Introspector.query_label, hq, atSpan]
  · exact ⟨"label does not exist in the document".toList,
      by simp [show_link, hd, Introspector.query_label, hq, atSpan]⟩

/-- Witness for C6: a link with span 42 to a label absent from the
introspector — the current pass yields the styled plain body, the final
pass a diagnostic attributed to span 42. -/
theorem show_label_fallback_and_span_witness :
    show_link ⟨fun _ => none⟩ false
        ⟨LinkTarget.label ⟨"intro".toList⟩, Content.text ("go".toList), 42⟩ =
      Except.ok (hyphenateOff (Content.text ("go".toList))) ∧
    (∃ m, show_link ⟨fun _ => none⟩ true
        ⟨LinkTarget.label ⟨"intro".toList⟩, Content.text ("go".toList), 42⟩ =
      Except.error ⟨42, m⟩) :=
  show_label_fallback_and_span ⟨fun _ => none⟩
    ⟨LinkTarget.label ⟨"intro".toList⟩, Content.text ("go".toList), 42⟩
    ⟨"intro".toList⟩ rfl rfl

/-- Claim C7: whenever a link body becomes linked — a concrete destination,
or a label the introspector resolves — the show output is that linked body
styled with hyphenation forced off, regardless of the destination kind. -/
theorem show_linked_hyphenation_off (intro : Introspector) (fp : Bool)
    (l : LinkElem) :
    (∀ d : Destination, l.dest = LinkTarget.dest d →
      show_link intro fp l =
        Except.ok (Content.styledHyphenate (Smart.custom false)
          (Content.linked d l.body))) ∧
    (∀ (lab : Label) (loc : Location), l.dest = LinkTarget.label lab →
      intro.find lab = some loc →
      show_link intro fp l =
        Except.ok (Content.styledHyphenate (Smart.custom false)
          (Content.linked (Destination.location loc) l.body))) := by
  constructor
  · intro d hd
    simp [show_link, hd, hyphenateOff]
  · intro lab loc hd hq
    simp [show_link, hd, Introspector.query_label, hq, atSpan, hyphenateOff]

/-- Witness for C7: a URL link and a resolved label link, both emitted with
hyphenation forced off. -/
theorem show_linked_hyphenation_off_witness :
    show_link ⟨fun _ => some ⟨7⟩⟩ true
        ⟨LinkTarget.dest (Destination.url ("https://example.com".toList)),
          Content.text ("t".toList), 0⟩ =
      Except.ok (Content.styledHyphenate (Smart.custom false)
        (Content.linked (Destination.url ("https://example.com".toList))
          (Content.text ("t".toList)))) ∧
    show_link ⟨fun _ => some ⟨7⟩⟩ true
        ⟨LinkTarget.label ⟨"intro".toList⟩, Content.text ("t".toList), 0⟩ =
      Except.ok (Content.styledHyphenate (Smart.custom false)
        (Content.linked (Destination.location ⟨7⟩) (Content.text ("t".toList)))) :=
  ⟨(show_linked_hyphenation_off ⟨fun _ => some ⟨7⟩⟩ true
      ⟨LinkTarget.dest (Destination.url ("https://example.com".toList)),
        Content.text ("t".toList), 0⟩).1
    (Destination.url ("https://example.com".toList)) rfl,
   (show_linked_hyphenation_off ⟨fun _ => some ⟨7⟩⟩ true
      ⟨LinkTarget.label ⟨"intro".toList⟩, Content.text ("t".toList), 0⟩).2
    ⟨"intro".toList⟩ ⟨7⟩ rfl rfl⟩

/-- Claim C10: the hyphenation-off styling is applied to the show output
unconditionally — every successful show result is a hyphenation-styled
body, and in particular the unlinked fallback body returned when a label
does not resolve in the current pass is styled too. -/
theorem show_styles_fallback_too (intro : Introspector) (fp : Bool)
    (l : LinkElem) :
    (∀ c : Content, show_link intro fp l = Except.ok c →
      ∃ inner, c = Content.styledHyphenate (Smart.custom false) inner) ∧
    (∀ lab : Label, l.dest = LinkTarget.label lab → intro.find lab = none →
      show_link intro false l =
        Except.ok (Content.styledHyphenate (Smart.custom false) l.body)) := by
  constructor
  · intro c hc
    cases hd : l.dest with
    | dest d =>
      refine ⟨Content.linked d l.body, ?_⟩
      simp [show_link, hd, hyphenateOff] at hc
      exact hc.symm
    | label lab =>
      cases hq : intro.find lab with
      | some loc =>
        refine ⟨Content.linked (Destination.location loc) l.body, ?_⟩
        simp [show_link, hd, Introspector.query_label, hq, atSpan, hyphenateOff] at hc
        exact hc.symm
      | none =>
        cases fp with
        | true => simp [show_link, hd, Introspector.query_label, hq, atSpan] at hc
        | false =>
          refine ⟨l.body, ?_⟩
          simp [show_link, hd, Introspector.query_label, hq, atSpan,
            hyphenateOff] at hc
          exact hc.symm
  · intro lab hd hq
    simp [show_link, hd, Introspector.query_label, hq, atSpan, hyphenateOff]

/-- Witness for C10: the unlinked fallback for an unresolved label is itself
wrapped in the hyphenation-off styling. -/
theorem show_styles_fallback_too_witness :
    show_link ⟨fun _ => none⟩ false
        ⟨LinkTarget.label ⟨"x".toList⟩, Content.text ("b".toList), 5⟩ =
      Except.ok (Content.styledHyphenate (Smart.custom false)
        (Content.text ("b".toList))) :=
  (show_styles_fallback_too ⟨fun _ => none⟩ false
    ⟨LinkTarget.label ⟨"x".toList⟩, Content.text ("b".toList), 5⟩).2
    ⟨"x".toList⟩ rfl rfl

/-- Claim C9: an explicit column-gutter (resp. row-gutter) argument takes
precedence over the general gutter argument; when omitted it falls back to
the gutter argument; when both are omitted the default track sizing
applies. -/
theorem gutter_argument_precedence (args : TableArgs) :
    (∀ v : TrackSizings, args.columnGutter = some v →
      columnGutterValue args = v) ∧
    (∀ g : TrackSizings, args.columnGutter = none → args.gutter = some g →
      columnGutterValue args = g) ∧
    (args.columnGutter = none → args.gutter = none →
      columnGutterValue args = defaultTracks) ∧
    (∀ v : TrackSizings, args.rowGutter = some v → rowGutterValue args = v) ∧
    (∀ g : TrackSizings, args.rowGutter = none → args.gutter = some g →
      rowGutterValue args = g) ∧
    (args.rowGutter = none → args.gutter = none →
      rowGutterValue args = defaultTracks) := by
  refine ⟨?_, ?_, ?_, ?_, ?_, ?_⟩
  · intro v h
    simp [columnGutterValue, parseColumnGutter, h, Option.or]
  · intro g h hg
    simp [columnGutterValue, parseColumnGutter, h, hg, Option.or]
  · intro h hg
    simp [columnGutterValue, parseColumnGutter, h, hg, Option.or]
  · intro v h
    simp [rowGutterValue, parseRowGutter, h, Option.or]
  · intro g h hg
    simp [rowGutterValue, parseRowGutter, h, hg, Option.or]
  · intro h hg
    simp [rowGutterValue, parseRowGutter, h, hg, Option.or]

/-- Witness for C9: with both an explicit gutter and an explicit
column-gutter, the column-gutter wins while the row-gutter falls back to the
gutter. -/
theorem gutter_argument_precedence_witness :
    columnGutterValue ⟨some ⟨[1]⟩, some ⟨[2]⟩, none⟩ = ⟨[2]⟩ ∧
    rowGutterValue ⟨some ⟨[1]⟩, some ⟨[2]⟩, none⟩ = ⟨[1]⟩ :=
  ⟨(gutter_argument_precedence ⟨some ⟨[1]⟩, some ⟨[2]⟩, none⟩).1 ⟨[2]⟩ rfl,
   (gutter_argument_precedence ⟨some ⟨[1]⟩, some ⟨[2]⟩, none⟩).2.2.2.2.1 ⟨[1]⟩ rfl rfl⟩

/-- Claim C1: cell fill resolution — a `custom` fill override wins (including
`custom none`, "no fill", which is never conflated with `auto`), while an
`auto` fill resolves to the container's Celled fill evaluated at the cell's
coordinate; the container default never overrides a custom cell value. -/
theorem fill_custom_wins_auto_defers (c : TableCell) (x y : Nat)
    (cf : Celled (Option Paint)) (ca : Smart Align) (ci : Sides ℚ) :
    (∀ v : Option Paint, c.fill = Smart.custom v →
      (resolveCellAt c x y cf ca ci).fill = v) ∧
    (c.fill = Smart.auto →
      (resolveCellAt c x y cf ca ci).fill = cf.eval x y) ∧
    (c.fill = Smart.custom none →
      (resolveCellAt c x y cf ca ci).fill = none) := by
  refine ⟨?_, ?_, ?_⟩
  · intro v h
    simp [resolveCellAt, TableCell.resolve_cell, Smart.unwrap_or, h]
  · intro h
    simp [resolveCellAt, TableCell.resolve_cell, Smart.unwrap_or, h]
  · intro h
    simp [resolveCellAt, TableCell.resolve_cell, Smart.unwrap_or, h]

/-- Witness for C1: a cell overriding fill to color 1 resolves to color 1
even though the container fill says color 2 at every coordinate. -/
theorem fill_custom_wins_auto_defers_witness :
    (resolveCellAt ⟨Content.text [], Smart.custom (some (Paint.color 1)),
        Smart.auto, Smart.auto⟩ 0 0 (Celled.value (some (Paint.color 2)))
        Smart.auto (Sides.splat 5)).fill = some (Paint.color 1) :=
  (fill_custom_wins_auto_defers ⟨Content.text [], Smart.custom (some (Paint.color 1)),
    Smart.auto, Smart.auto⟩ 0 0 (Celled.value (some (Paint.color 2)))
    Smart.auto (Sides.splat 5)).1 (some (Paint.color 1)) rfl

/-- Claim C2: align resolution is two-valued on the container align — when
the container align is custom, a custom cell align takes precedence through
the fold but the stored metadata remains tri-state (wrapped as `custom`, not
collapsed), an auto cell align yields the container value wrapped as
`custom`; when the container align is auto, the cell's tri-state value is
stored unchanged. -/
theorem align_two_valued_on_container (c : TableCell) (x y : Nat)
    (f : Option Paint) (ci : Sides ℚ) :
    (∀ a b : Align, c.align = Smart.custom b →
      (c.resolve_cell x y f (Smart.custom a) ci).metaAlign =
        Smart.custom (b.fold a)) ∧
    (∀ a : Align, c.align = Smart.auto →
      (c.resolve_cell x y f (Smart.custom a) ci).metaAlign = Smart.custom a) ∧
    (c.resolve_cell x y f Smart.auto ci).metaAlign = c.align := by
  refine ⟨?_, ?_, ?_⟩
  · intro a b h
    simp [TableCell.resolve_cell, Cell.metaAlign, TableCell.pack, Smart.map_or, h]
  · intro a h
    simp [TableCell.resolve_cell, Cell.metaAlign, TableCell.pack, Smart.map_or, h]
  · simp [TableCell.resolve_cell, Cell.metaAlign, TableCell.pack]

/-- Witness for C2: a cell with a custom horizontal alignment, resolved under
a container align with both axes set, stores the folded alignment wrapped as
`custom` — the cell's horizontal axis wins, the vertical axis inherits. -/
theorem align_two_valued_on_container_witness :
    (TableCell.resolve_cell ⟨Content.text [], Smart.auto,
        Smart.custom ⟨some HAlignment.left, none⟩, Smart.auto⟩ 0 0 none
        (Smart.custom ⟨some HAlignment.right, some VAlignment.top⟩)
        (Sides.splat 5)).metaAlign =
      Smart.custom ⟨some HAlignment.left, some VAlignment.top⟩ := by
  have h := (align_two_valued_on_container ⟨Content.text [], Smart.auto,
    Smart.custom ⟨some HAlignment.left, none⟩, Smart.auto⟩ 0 0 none
    (Sides.splat 5)).1 ⟨some HAlignment.right, some VAlignment.top⟩
    ⟨some HAlignment.left, none⟩ rfl
  simpa [Align.fold] using h

/-- Claim C3: inset resolution is a per-side merge of the cell's override
with the container inset — a set side wins, an unset side inherits — and
since the container inset is concrete the stored result is concrete on all
four sides; in particular container `splat 5` merged with a cell override
setting only `top := 10` yields `{left 5, top 10, right 5, bottom 5}`. -/
theorem inset_fieldwise_merge_concrete (c : TableCell) (x y : Nat)
    (f : Option Paint) (ca : Smart Align) (ci : Sides ℚ) :
    (∀ i : Sides (Option ℚ), c.inset = Smart.custom i →
      (c.resolve_cell x y f ca ci).metaInset =
        Smart.custom ((Sides.mk (i.left.getD ci.left) (i.top.getD ci.top)
          (i.right.getD ci.right) (i.bottom.getD ci.bottom)).map some)) ∧
    (c.inset = Smart.auto →
      (c.resolve_cell x y f ca ci).metaInset = Smart.custom (ci.map some)) ∧
    (∃ s : Sides ℚ,
      (c.resolve_cell x y f ca ci).metaInset = Smart.custom (s.map some)) := by
  refine ⟨?_, ?_, ?_⟩
  · intro i h
    simp [TableCell.resolve_cell, Cell.metaInset, TableCell.pack, Smart.map_or, h,
      Sides.fold]
  · intro h
    simp [TableCell.resolve_cell, Cell.metaInset, TableCell.pack, Smart.map_or, h]
  · exact ⟨c.inset.map_or ci (fun inner => inner.fold ci), by
      simp [TableCell.resolve_cell, Cell.metaInset, TableCell.pack]⟩

/-- Witness for C3: the spec's concrete example — container inset 5 on every
side, cell override setting only the top side to 10, resolved inset
`{left 5, top 10, right 5, bottom 5}`, all sides set. -/
theorem inset_fieldwise_merge_concrete_witness :
    (TableCell.resolve_cell ⟨Content.text [], Smart.auto, Smart.auto,
        Smart.custom ⟨none, some 10, none, none⟩⟩ 0 0 none Smart.auto
        (Sides.splat 5)).metaInset =
      Smart.custom ⟨some 5, some 10, some 5, some 5⟩ := by
  have h := (inset_fieldwise_merge_concrete ⟨Content.text [], Smart.auto, Smart.auto,
    Smart.custom ⟨none, some 10, none, none⟩⟩ 0 0 none Smart.auto
    (Sides.splat 5)).1 ⟨none, some 10, none, none⟩ rfl
  simpa [Sides.map, Sides.splat] using h

/-- Claim C4: the resolved cell's fill is concrete — the `fill` field is a
plain `Option Paint` equal to the value stored in the body metadata, the
metadata fill is always wrapped as `custom` (no `auto` fill survives cell
resolution) — while the align metadata may remain tri-state: when both the
container align and the cell align are `auto`, an `auto` align is stored. -/
theorem resolved_fill_concrete (c : TableCell) (x y : Nat) (f : Option Paint)
    (ca : Smart Align) (ci : Sides ℚ) :
    (∃ v : Option Paint,
      (c.resolve_cell x y f ca ci).metaFill = Smart.custom v ∧
      (c.resolve_cell x y f ca ci).fill = v) ∧
    ((c.resolve_cell x y f ca ci).metaFill ≠ Smart.auto) ∧
    (ca = Smart.auto → c.align = Smart.auto →
      (c.resolve_cell x y f ca ci).metaAlign = Smart.auto) := by
  refine ⟨⟨c.fill.unwrap_or f, ?_, ?_⟩, ?_, ?_⟩
  · simp [TableCell.resolve_cell, Cell.metaFill, TableCell.pack]
  · simp [TableCell.resolve_cell]
  · simp [TableCell.resolve_cell, Cell.metaFill, TableCell.pack]
  · intro hca hc
    simp [TableCell.resolve_cell, Cell.metaAlign, TableCell.pack, hca, hc]

/-- Witness for C4: a fully-auto cell resolved under an auto container align
keeps an `auto` align in its metadata while its fill metadata is
`custom none` — concrete, and distinct from `auto`. -/
theorem resolved_fill_concrete_witness :
    (TableCell.resolve_cell ⟨Content.text [], Smart.auto, Smart.auto, Smart.auto⟩
        0 0 none Smart.auto (Sides.splat 5)).metaFill ≠ Smart.auto ∧
    (TableCell.resolve_cell ⟨Content.text [], Smart.auto, Smart.auto, Smart.auto⟩
        0 0 none Smart.auto (Sides.splat 5)).metaAlign = Smart.auto := by
  have h := resolved_fill_concrete ⟨Content.text [], Smart.auto, Smart.auto, Smart.auto⟩
    0 0 none Smart.auto (Sides.splat 5)
  exact ⟨h.2.1, h.2.2 rfl rfl⟩

/-- Claim C8: for the field-wise-merge property values used by cell
resolution, folding a custom value with itself is idempotent — for
alignments `v.fold v = v`; for four-sided insets, a fully-set override
folded against the same concrete sides returns those sides, and the
homogeneous style-chain fold of a partial side set with itself returns it
unchanged. -/
theorem fold_custom_self_idempotent :
    (∀ v : Align, v.fold v = v) ∧
    (∀ s : Sides ℚ, (s.map some).fold s = s) ∧
    (∀ s : Sides (Option ℚ), s.foldOpt s = s) := by
  refine ⟨?_, ?_, ?_⟩
  · intro v
    obtain ⟨x, y⟩ := v
    cases x <;> cases y <;> simp [Align.fold, Option.or]
  · intro s
    simp [Sides.map, Sides.fold]
  · intro s
    obtain ⟨l, t, r, b⟩ := s
    cases l <;> cases t <;> cases r <;> cases b <;>
      simp [Sides.foldOpt, Option.or]

/-- Witness for C8: idempotency at a concrete partially-set alignment and a
concrete inset. -/
theorem fold_custom_self_idempotent_witness :
    Align.fold ⟨some HAlignment.left, none⟩ ⟨some HAlignment.left, none⟩ =
      ⟨some HAlignment.left, none⟩ ∧
    Sides.fold (Sides.map (Sides.splat (5 : ℚ)) some) (Sides.splat 5) =
      Sides.splat 5 :=
  ⟨fold_custom_self_idempotent.1 ⟨some HAlignment.left, none⟩,
   fold_custom_self_idempotent.2.1 (Sides.splat 5)⟩

end Typst
